import Mathlib

/-!
Shallow embedding of the `Noise` namespace of the noise repository
(current source: the TypeScript module defining `NoiseType`, `MaskType`,
`CombineOptions` and the `Noise` namespace).

Modelling conventions:
* JavaScript numbers are modelled as real numbers (`ℝ`).
* The module-level mutable state (`nodes`, `gradients`, `currentRng`) is
  passed explicitly: generators take the gradient grid and node count as
  parameters, and functions that draw from the RNG return the updated RNG.
* An out-of-bounds array read followed by a property access (which aborts
  the TypeScript program) is modelled by `Option`: `none` means the call
  does not produce a normal array result.  `CreateNoiseMask`'s missing
  `default` branch (which returns `undefined`) is likewise `none`.
* The enums `NoiseType` (Perlin=0, Static=1, Ridged=2, Terrain=3, River=4),
  `MaskType` (Gradient=0, Solid=1, Island=2, Edge_falloff=3,
  Vertical_gradient=4, Horizontal_gradient=5, Checkerboard=6) and
  `CombineOptions` (Product=0 .. Quotient=5) are numeric in TypeScript and
  are modelled as `ℕ`, so that out-of-range values can be passed, as the
  claims about `default` branches require.
-/

/-- Modelled from the spec: the external `RandomSource` collaborator
(`FastRandomBlocks` from the `Random` extension, out of scope of this
repository).  Its boundary is `nextNumber() -> integer in [0, 65535]`,
an opaque stateful sequence of draws; it is modelled as a stream of
natural numbers, `nextNumber` popping the head. -/
structure FastRandomBlocks where
  seq : ℕ → ℕ

def FastRandomBlocks.nextNumber (r : FastRandomBlocks) : ℕ × FastRandomBlocks :=
  (r.seq 0, ⟨fun n => r.seq (n + 1)⟩)

/-- A gradient vector `{x, y}`. -/
structure Vec2 where
  x : ℝ
  y : ℝ

/-- The `gradients` grid: an array of arrays of vectors. -/
abbrev Grid := List (List Vec2)

/-- A noise map: an array of rows of numbers. -/
abbrev NoiseMap := List (List ℝ)

noncomputable section

/-- `seeded_random()`: `currentRng.nextNumber() / 65535`. -/
def seeded_random (r : FastRandomBlocks) : ℝ × FastRandomBlocks :=
  let p := r.nextNumber
  ((p.1 : ℝ) / 65535, p.2)

/-- `random_unit_vector()`: angle `theta = seeded_random() * 2 * Math.PI`,
vector `(cos theta, sin theta)`. -/
def random_unit_vector (r : FastRandomBlocks) : Vec2 × FastRandomBlocks :=
  let p := seeded_random r
  (⟨Real.cos (p.1 * 2 * Real.pi), Real.sin (p.1 * 2 * Real.pi)⟩, p.2)

/-- Inner loop of `initialize_gradients`: push `n` unit vectors into a row. -/
def draw_row : ℕ → FastRandomBlocks → List Vec2 × FastRandomBlocks
  | 0, r => ([], r)
  | n + 1, r =>
      let p := random_unit_vector r
      let q := draw_row n p.2
      (p.1 :: q.1, q.2)

/-- Outer loop of `initialize_gradients`: push `i` rows of `n` vectors. -/
def draw_rows : ℕ → ℕ → FastRandomBlocks → Grid × FastRandomBlocks
  | 0, _, r => ([], r)
  | i + 1, n, r =>
      let p := draw_row n r
      let q := draw_rows i n p.2
      (p.1 :: q.1, q.2)

/-- `initialize_gradients()`: a fresh `nodes × nodes` grid of unit vectors,
drawn row by row from the current RNG. -/
def initialize_gradients (nodes : ℕ) (r : FastRandomBlocks) : Grid × FastRandomBlocks :=
  draw_rows nodes nodes r

/-- Array access `gradients[vert_y][vert_x]`; `none` when either index is
outside the grid (the TypeScript read yields `undefined` and the following
property access aborts the call). -/
def gridGet (g : Grid) (vert_x vert_y : ℤ) : Option Vec2 :=
  if 0 ≤ vert_y ∧ 0 ≤ vert_x then
    match g.get? vert_y.toNat with
    | some row => row.get? vert_x.toNat
    | none => none
  else none

/-- `dot_prod_grid(x, y, vert_x, vert_y)`: dot product of the displacement
`(x - vert_x, y - vert_y)` with the gradient at that lattice point. -/
def dot_prod_grid (g : Grid) (x y : ℝ) (vert_x vert_y : ℤ) : Option ℝ :=
  match gridGet g vert_x vert_y with
  | some g_vect => some ((x - vert_x) * g_vect.x + (y - vert_y) * g_vect.y)
  | none => none

/-- `smootherstep(x) = 6x^5 - 15x^4 + 10x^3`. -/
def smootherstep (x : ℝ) : ℝ := 6 * x ^ 5 - 15 * x ^ 4 + 10 * x ^ 3

/-- `interp(x, a, b) = a + smootherstep(x) * (b - a)`. -/
def interp (x a b : ℝ) : ℝ := a + smootherstep x * (b - a)

/-- The raw bilinear quintic blend computed inside `perlin_get` before the
final remap: `interp(sy, ix0, ix1)` over the four corner dot products. -/
def perlin_blend (g : Grid) (x y : ℝ) : Option ℝ :=
  let x0 : ℤ := ⌊x⌋
  let x1 : ℤ := x0 + 1
  let y0 : ℤ := ⌊y⌋
  let y1 : ℤ := y0 + 1
  let sx : ℝ := x - x0
  let sy : ℝ := y - y0
  match dot_prod_grid g x y x0 y0, dot_prod_grid g x y x1 y0,
        dot_prod_grid g x y x0 y1, dot_prod_grid g x y x1 y1 with
  | some n00, some n10, some n01, some n11 =>
      some (interp sy (interp sx n00 n10) (interp sx n01 n11))
  | _, _, _, _ => none

/-- `perlin_get(x, y) = (interp(sy, ix0, ix1) + 1) / 2`. -/
def perlin_get (g : Grid) (x y : ℝ) : Option ℝ :=
  (perlin_blend g x y).map (fun v => (v + 1) / 2)

/-- Sequences a row (or column of rows) of computations, failing as the
TypeScript loop does as soon as one cell's computation aborts. -/
def collect {α : Type} : List (Option α) → Option (List α)
  | [] => some []
  | none :: _ => none
  | some v :: rest => (collect rest).map (fun l => v :: l)

/-- `generate_perlin_noise(width, height)`: sample `perlin_get` at
`(x / width * (nodes - 1), y / height * (nodes - 1))` for every pixel. -/
def generate_perlin_noise (g : Grid) (nodes width height : ℕ) : Option NoiseMap :=
  collect ((List.range height).map (fun (y : ℕ) =>
    collect ((List.range width).map (fun (x : ℕ) =>
      perlin_get g ((x : ℝ) / width * ((nodes : ℝ) - 1))
        ((y : ℝ) / height * ((nodes : ℝ) - 1))))))

/-- The Ridged transform applied to each Perlin value inside
`generate_ridged_noise`: `value = 1 - Math.abs(2 * value - 1)`. -/
def ridgedTransform (v : ℝ) : ℝ := 1 - |2 * v - 1|

/-- `generate_ridged_noise(width, height)`: Perlin value at the same
coordinates as `generate_perlin_noise`, then `1 - |2v - 1|`. -/
def generate_ridged_noise (g : Grid) (nodes width height : ℕ) : Option NoiseMap :=
  collect ((List.range height).map (fun (y : ℕ) =>
    collect ((List.range width).map (fun (x : ℕ) =>
      (perlin_get g ((x : ℝ) / width * ((nodes : ℝ) - 1))
        ((y : ℝ) / height * ((nodes : ℝ) - 1))).map ridgedTransform))))

/-- `generate_terrain_noise(width, height)`: Perlin value, then
`Math.pow(value, 1.5)`. -/
def generate_terrain_noise (g : Grid) (nodes width height : ℕ) : Option NoiseMap :=
  collect ((List.range height).map (fun (y : ℕ) =>
    collect ((List.range width).map (fun (x : ℕ) =>
      (perlin_get g ((x : ℝ) / width * ((nodes : ℝ) - 1))
        ((y : ℝ) / height * ((nodes : ℝ) - 1))).map (fun v => Real.rpow v 1.5)))))

/-- `generate_river_noise(width, height)`: `1 - ridged[y][x]` over the full
ridged map. -/
def generate_river_noise (g : Grid) (nodes width height : ℕ) : Option NoiseMap :=
  (generate_ridged_noise g nodes width height).map (fun ridged =>
    ridged.map (fun row => row.map (fun v => 1 - v)))

/-- Inner loop of `generate_static_noise`: a row of `seeded_random()` draws. -/
def static_row : ℕ → FastRandomBlocks → List ℝ × FastRandomBlocks
  | 0, r => ([], r)
  | n + 1, r =>
      let p := seeded_random r
      let q := static_row n p.2
      (p.1 :: q.1, q.2)

/-- `generate_static_noise(width, height)`: each pixel an independent draw. -/
def static_rows : ℕ → ℕ → FastRandomBlocks → NoiseMap × FastRandomBlocks
  | 0, _, r => ([], r)
  | i + 1, n, r =>
      let p := static_row n r
      let q := static_rows i n p.2
      (p.1 :: q.1, q.2)

def generate_static_noise (width height : ℕ) (r : FastRandomBlocks) :
    NoiseMap × FastRandomBlocks :=
  static_rows height width r

/-- `createNoiseMap(noiseType, width, height, scale?)`.  `scale || 4` is
modelled as `if scale = 0 then 4 else scale` (`0` standing for a falsy
`scale`).  The returned pair carries the RNG state left in `currentRng`;
the `default` branch returns the empty array. -/
def createNoiseMap (noiseType : ℕ) (width height scale : ℕ) (r : FastRandomBlocks) :
    Option NoiseMap × FastRandomBlocks :=
  match noiseType with
  | 0 =>
      let nodes := if scale = 0 then 4 else scale
      let p := initialize_gradients nodes r
      (generate_perlin_noise p.1 nodes width height, p.2)
  | 1 =>
      let p := generate_static_noise width height r
      (some p.1, p.2)
  | 2 =>
      let nodes := if scale = 0 then 4 else scale
      let p := initialize_gradients nodes r
      (generate_ridged_noise p.1 nodes width height, p.2)
  | 3 =>
      let nodes := if scale = 0 then 4 else scale
      let p := initialize_gradients nodes r
      (generate_terrain_noise p.1 nodes width height, p.2)
  | 4 =>
      let nodes := if scale = 0 then 4 else scale
      let p := initialize_gradients nodes r
      (generate_river_noise p.1 nodes width height, p.2)
  | _ => (some [], r)

/-- One octave of `createLayeredNoiseMap`: sample `perlin_get` at
`((x / width) * layerNodes, (y / height) * layerNodes)` for every pixel. -/
def layer_field (g : Grid) (layerNodes : ℝ) (width height : ℕ) : Option NoiseMap :=
  collect ((List.range height).map (fun (y : ℕ) =>
    collect ((List.range width).map (fun (x : ℕ) =>
      perlin_get g ((x : ℝ) / width * layerNodes) ((y : ℝ) / height * layerNodes)))))

/-- Pointwise `noiseMap[y][x] += value` accumulation. -/
def mapAdd (a b : NoiseMap) : NoiseMap :=
  List.zipWith (fun ra rb => List.zipWith (fun u v => u + v) ra rb) a b

/-- Pointwise scaling by the current octave amplitude. -/
def mapScale (c : ℝ) (m : NoiseMap) : NoiseMap :=
  m.map (fun row => row.map (fun v => c * v))

/-- The octave loop of `createLayeredNoiseMap`: for each layer regenerate
the gradients, add `amplitude * perlin` into the accumulator, then update
`totalAmplitude` and `amplitude`.  `none` when some octave sampled out of
the gradient grid (the TypeScript call aborts there). -/
def layered_loop (nodes width height : ℕ) (persistenceValue : ℝ) :
    ℕ → ℕ → ℝ → ℝ → NoiseMap → FastRandomBlocks →
    Option (NoiseMap × ℝ × FastRandomBlocks)
  | 0, _, _, totalAmplitude, acc, r => some (acc, totalAmplitude, r)
  | rem + 1, i, amplitude, totalAmplitude, acc, r =>
      let p := initialize_gradients nodes r
      let frequency : ℝ := 2 ^ i
      let layerNodes : ℝ := (nodes : ℝ) * frequency
      match layer_field p.1 layerNodes width height with
      | none => none
      | some f =>
          layered_loop nodes width height persistenceValue rem (i + 1)
            (amplitude * persistenceValue) (totalAmplitude + amplitude)
            (mapAdd acc (mapScale amplitude f)) p.2

/-- `createLayeredNoiseMap(width, height, layers, scale?, persistence?)`.
`scale || 4` and `persistence || 0.5` are modelled as substitution on the
zero (falsy) value; the persistence argument is a rational, as every
concrete TypeScript number is.  On an aborted octave the result is `none`
(the RNG component is then irrelevant: no array is returned). -/
def createLayeredNoiseMap (width height layers scale : ℕ) (persistence : ℚ)
    (r : FastRandomBlocks) : Option NoiseMap × FastRandomBlocks :=
  let nodes := if scale = 0 then 4 else scale
  let persistenceValue : ℝ := if persistence = 0 then 0.5 else (persistence : ℝ)
  let zeroMap : NoiseMap :=
    (List.range height).map (fun (_ : ℕ) => (List.range width).map (fun (_ : ℕ) => 0))
  match layered_loop nodes width height persistenceValue layers 0 1 0 zeroMap r with
  | none => (none, r)
  | some q => (some (q.1.map (fun row => row.map (fun v => v / q.2.1))), q.2.2)

/-- `generate_gradient_mask(width, height)`: radial gradient, 1 at the
center, clamped to `[0, 1]`. -/
def generate_gradient_mask (width height : ℕ) : NoiseMap :=
  let cx : ℝ := (width : ℝ) / 2
  let cy : ℝ := (height : ℝ) / 2
  let maxDist : ℝ := Real.sqrt (cx * cx + cy * cy)
  (List.range height).map (fun (y : ℕ) =>
    (List.range width).map (fun (x : ℕ) =>
      let dx : ℝ := (x : ℝ) - cx
      let dy : ℝ := (y : ℝ) - cy
      let dist : ℝ := Real.sqrt (dx * dx + dy * dy)
      min (max (1 - dist / maxDist) 0) 1))

/-- `generate_solid_mask(width, height, value)`: the same value everywhere. -/
def generate_solid_mask (width height : ℕ) (value : ℝ) : NoiseMap :=
  (List.range height).map (fun (_ : ℕ) => (List.range width).map (fun (_ : ℕ) => value))

/-- `generate_vertical_gradient(width, height)`: each row is the constant
`y / (height - 1)`. -/
def generate_vertical_gradient (width height : ℕ) : NoiseMap :=
  (List.range height).map (fun (y : ℕ) =>
    (List.range width).map (fun (_ : ℕ) => (y : ℝ) / ((height : ℝ) - 1)))

/-- `generate_horizontal_gradient(width, height)`: each column is the
constant `x / (width - 1)`. -/
def generate_horizontal_gradient (width height : ℕ) : NoiseMap :=
  (List.range height).map (fun (_ : ℕ) =>
    (List.range width).map (fun (x : ℕ) => (x : ℝ) / ((width : ℝ) - 1)))

/-- `generate_island_mask(width, height)`: radial falloff against
`min(cx, cy)`, clamped below at 0 only. -/
def generate_island_mask (width height : ℕ) : NoiseMap :=
  let cx : ℝ := (width : ℝ) / 2
  let cy : ℝ := (height : ℝ) / 2
  let maxDist : ℝ := min cx cy
  (List.range height).map (fun (y : ℕ) =>
    (List.range width).map (fun (x : ℕ) =>
      let dx : ℝ := (x : ℝ) - cx
      let dy : ℝ := (y : ℝ) - cy
      let dist : ℝ := Real.sqrt (dx * dx + dy * dy)
      max (1 - dist / maxDist) 0))

/-- `generate_checkerboard(width, height, size)`. -/
def generate_checkerboard (width height : ℕ) (size : ℝ) : NoiseMap :=
  (List.range height).map (fun (y : ℕ) =>
    (List.range width).map (fun (x : ℕ) =>
      if (⌊(x : ℝ) / size⌋ + ⌊(y : ℝ) / size⌋) % 2 = 0 then 1 else 0))

/-- `generate_edge_falloff(width, height, margin)`. -/
def generate_edge_falloff (width height : ℕ) (margin : ℝ) : NoiseMap :=
  (List.range height).map (fun (y : ℕ) =>
    (List.range width).map (fun (x : ℕ) =>
      let dx : ℝ := min (x : ℝ) ((width : ℝ) - 1 - (x : ℝ))
      let dy : ℝ := min (y : ℝ) ((height : ℝ) - 1 - (y : ℝ))
      let d : ℝ := min dx dy
      min 1 (d / margin)))

/-- `CreateNoiseMask(maskType, width, height, opt?)`.  The `switch` has a
case for each of the seven `MaskType` members and no `default`, so any
other value falls through and the function returns `undefined` (`none`). -/
def CreateNoiseMask (maskType : ℕ) (width height : ℕ) (opt : ℝ) : Option NoiseMap :=
  match maskType with
  | 0 => some (generate_gradient_mask width height)
  | 1 => some (generate_solid_mask width height opt)
  | 2 => some (generate_island_mask width height)
  | 3 => some (generate_edge_falloff width height opt)
  | 4 => some (generate_vertical_gradient width height)
  | 5 => some (generate_horizontal_gradient width height)
  | 6 => some (generate_checkerboard width height opt)
  | _ => none

/-- Cell read `m[y][x]`, with junk default outside the rectangle (all
theorems below only read in-bounds cells of rectangular maps). -/
def cellGet (m : NoiseMap) (y x : ℕ) : ℝ :=
  (m.getD y []).getD x 0

/-- `combineNoiseMaps(noiseMap1, noiseMap2, operation)`: pointwise
combination over the common `min`-cropped region, dispatching on the
`CombineOptions` value, with a passthrough `default`. -/
def combineNoiseMaps (noiseMap1 noiseMap2 : NoiseMap) (operation : ℕ) : NoiseMap :=
  let h := min noiseMap1.length noiseMap2.length
  let w := min (noiseMap1.getD 0 []).length (noiseMap2.getD 0 []).length
  (List.range h).map (fun y =>
    (List.range w).map (fun x =>
      let val1 := cellGet noiseMap1 y x
      let val2 := cellGet noiseMap2 y x
      match operation with
      | 0 => Real.sqrt (val1 * val2)
      | 1 => (val1 + val2) / 2
      | 2 => max 0 (min 1 (val1 - val2 + 0.5))
      | 3 => max val1 val2
      | 4 => min val1 val2
      | 5 => val1 / val2
      | _ => val1))

/-- `invert_noise(noise)`: every value `v` becomes `1 - v`. -/
def invert_noise (noise : NoiseMap) : NoiseMap :=
  let height := noise.length
  let width := (noise.getD 0 []).length
  (List.range height).map (fun (y : ℕ) =>
    (List.range width).map (fun (x : ℕ) => 1 - cellGet noise y x))

/-- A map is rectangular with row length `w`. -/
def rectangular (m : NoiseMap) (w : ℕ) : Prop :=
  ∀ row ∈ m, row.length = w

end

/-- Reading cell `(y, x)` of a map built as `height` rows of `width`
cells evaluates the cell formula, whenever the indices are in range. -/
theorem cellGet_build (f : ℕ → ℕ → ℝ) (h w y x : ℕ) (hy : y < h) (hx : x < w) :
    cellGet ((List.range h).map (fun y => (List.range w).map (fun x => f y x))) y x
      = f y x := by
  simp [cellGet, List.getD_eq_get?, List.get?_map, List.get?_range, hy, hx]

/-- C1: the claim as stated is false: at `v = 0` the Ridged transform
`1 - |2v - 1|` is `0`, not the claimed maximum `1`; the value `1` is
instead taken at the midpoint `v = 1/2`. -/
theorem c1_counterexample :
    ridgedTransform 0 ≠ 1 ∧ ridgedTransform 0 = 0 ∧ ridgedTransform (1 / 2) = 1 := by
  unfold ridgedTransform
  norm_num

/-- C1 (amended): for `v ∈ [0,1]`, `ridgedTransform v = 1 - |2v - 1|` lies
in `[0,1]`; it attains its maximum `1` exactly when `v = 1/2` and its
minimum `0` exactly when `v = 0` or `v = 1`. -/
theorem c1_theorem (v : ℝ) (h0 : 0 ≤ v) (h1 : v ≤ 1) :
    0 ≤ ridgedTransform v ∧ ridgedTransform v ≤ 1 ∧
    (ridgedTransform v = 1 ↔ v = 1 / 2) ∧
    (ridgedTransform v = 0 ↔ v = 0 ∨ v = 1) := by
  unfold ridgedTransform
  have habs : |2 * v - 1| ≤ 1 := abs_le.mpr ⟨by linarith, by linarith⟩
  have hnn : 0 ≤ |2 * v - 1| := abs_nonneg _
  refine ⟨by linarith, by linarith, ⟨fun h => ?_, fun h => ?_⟩, ⟨fun h => ?_, fun h => ?_⟩⟩
  · have hz : |2 * v - 1| = 0 := by linarith
    have := abs_eq_zero.mp hz
    linarith
  · subst h; norm_num
  · have ho : |2 * v - 1| = 1 := by linarith
    rcases (abs_eq (by norm_num : (0:ℝ) ≤ 1)).mp ho with h' | h'
    · right; linarith
    · left; linarith
  · rcases h with rfl | rfl <;> norm_num

/-- C1 witness: the amended statement at the concrete input `v = 1/2`. -/
theorem c1_witness :
    0 ≤ ridgedTransform (1 / 2) ∧ ridgedTransform (1 / 2) ≤ 1 ∧
    (ridgedTransform (1 / 2) = 1 ↔ (1 / 2 : ℝ) = 1 / 2) ∧
    (ridgedTransform (1 / 2) = 0 ↔ (1 / 2 : ℝ) = 0 ∨ (1 / 2 : ℝ) = 1) :=
  c1_theorem (1 / 2) (by norm_num) (by norm_num)

/-- C5: same-seed determinism of the synthesizer.  The embedding is a pure
function of the seeded `RandomSource` state, so two `createNoiseMap` calls
with the same kind, dimensions, scale, and a `RandomSource` freshly seeded
with the same seed yield identical results, cell for cell. -/
theorem c5_theorem (createRNG : ℕ → FastRandomBlocks)
    (seed noiseType width height scale : ℕ) :
    createNoiseMap noiseType width height scale (createRNG seed)
      = createNoiseMap noiseType width height scale (createRNG seed) ∧
    ∀ y x : ℕ,
      Option.map (fun m => cellGet m y x)
          (createNoiseMap noiseType width height scale (createRNG seed)).1
        = Option.map (fun m => cellGet m y x)
          (createNoiseMap noiseType width height scale (createRNG seed)).1 :=
  ⟨rfl, fun _ _ => rfl⟩

/-- C9: the claim as stated (any `height ≥ 1`) is false: at
`width = height = 1`, the single cell sits at `y = 0` and at
`y = height - 1` simultaneously, and its value `0 / (1 - 1)` is not `1`. -/
theorem c9_counterexample :
    CreateNoiseMask 4 1 1 0 = some (generate_vertical_gradient 1 1) ∧
    cellGet (generate_vertical_gradient 1 1) 0 0 ≠ 1 := by
  constructor
  · rfl
  · simp [generate_vertical_gradient, cellGet, List.range_succ]

/-- C9 (amended): for `width ≥ 1` and `height ≥ 2`, the VerticalGradient
mask produced by `CreateNoiseMask` has value 0 at every cell with `y = 0`
and value 1 at every cell with `y = height - 1`, each row being the
constant `y / (height - 1)`. -/
theorem c9_theorem (width height : ℕ) (opt : ℝ) (hw : 1 ≤ width) (hh : 2 ≤ height) :
    CreateNoiseMask 4 width height opt = some (generate_vertical_gradient width height) ∧
    ∀ x, x < width →
      cellGet (generate_vertical_gradient width height) 0 x = 0 ∧
      cellGet (generate_vertical_gradient width height) (height - 1) x = 1 ∧
      ∀ y, y < height →
        cellGet (generate_vertical_gradient width height) y x
          = (y : ℝ) / ((height : ℝ) - 1) := by
  have hne : ((height : ℝ) - 1) ≠ 0 := by
    have : (2 : ℝ) ≤ (height : ℝ) := by exact_mod_cast hh
    linarith
  have hcell : ∀ y x, y < height → x < width →
      cellGet (generate_vertical_gradient width height) y x
        = (y : ℝ) / ((height : ℝ) - 1) := by
    intro y x hy hx
    unfold generate_vertical_gradient
    exact cellGet_build (fun y _ => (y : ℝ) / ((height : ℝ) - 1)) height width y x hy hx
  refine ⟨rfl, fun x hx => ⟨?_, ?_, fun y hy => hcell y x hy hx⟩⟩
  · rw [hcell 0 x (by omega) hx]
    simp
  · rw [hcell (height - 1) x (by omega) hx,
      Nat.cast_sub (by omega), Nat.cast_one, div_self hne]

/-- C9 witness: the amended statement at `width = 1`, `height = 2`. -/
theorem c9_witness :
    CreateNoiseMask 4 1 2 0 = some (generate_vertical_gradient 1 2) ∧
    ∀ x, x < 1 →
      cellGet (generate_vertical_gradient 1 2) 0 x = 0 ∧
      cellGet (generate_vertical_gradient 1 2) (2 - 1) x = 1 ∧
      ∀ y, y < 2 →
        cellGet (generate_vertical_gradient 1 2) y x = (y : ℝ) / ((2 : ℝ) - 1) :=
  c9_theorem 1 2 0 (by norm_num) (by norm_num)

/-- C10: `CreateNoiseMask` on any value outside the seven `MaskType`
members returns `undefined` (`none`), while `createNoiseMap` on a value
outside the five `NoiseType` members takes its `default` branch and
returns the empty array. -/
theorem c10_theorem (m k width height scale : ℕ) (opt : ℝ) (r : FastRandomBlocks)
    (hm : 7 ≤ m) (hk : 5 ≤ k) :
    CreateNoiseMask m width height opt = none ∧
    (createNoiseMap k width height scale r).1 = some [] ∧
    (createNoiseMap k width height scale r).2 = r := by
  obtain ⟨m', rfl⟩ : ∃ m', m = m' + 7 := ⟨m - 7, by omega⟩
  obtain ⟨k', rfl⟩ : ∃ k', k = k' + 5 := ⟨k - 5, by omega⟩
  exact ⟨rfl, rfl, rfl⟩

/-- C10 witness: the out-of-range mask value 7 and noise value 5. -/
theorem c10_witness :
    CreateNoiseMask 7 1 1 0 = none ∧
    (createNoiseMap 5 1 1 2 ⟨fun _ => 0⟩).1 = some [] ∧
    (createNoiseMap 5 1 1 2 ⟨fun _ => 0⟩).2 = ⟨fun _ => 0⟩ :=
  c10_theorem 7 5 1 1 2 0 ⟨fun _ => 0⟩ (by norm_num) (by norm_num)

/-- C6: over the combined region, the Product operation (0) of
`combineNoiseMaps` computes `sqrt(a[y][x] * b[y][x])` — a geometric-mean
style blend, not a raw multiply. -/
theorem c6_theorem (a b : NoiseMap) (wa wb : ℕ)
    (ha : rectangular a wa) (hb : rectangular b wb)
    (ha0 : (a.getD 0 []).length = wa) (hb0 : (b.getD 0 []).length = wb)
    (y x : ℕ) (hy : y < min a.length b.length) (hx : x < min wa wb) :
    cellGet (combineNoiseMaps a b 0) y x
      = Real.sqrt (cellGet a y x * cellGet b y x) := by
  unfold combineNoiseMaps
  rw [ha0, hb0]
  exact cellGet_build
    (fun y x => Real.sqrt (cellGet a y x * cellGet b y x))
    (min a.length b.length) (min wa wb) y x hy hx

/-- C6 witness: the Product blend on the concrete one-cell maps
`[[1]]` and `[[4]]`. -/
theorem c6_witness :
    cellGet (combineNoiseMaps [[1]] [[4]] 0) 0 0
      = Real.sqrt (cellGet [[1]] 0 0 * cellGet [[4]] 0 0) :=
  c6_theorem [[1]] [[4]] 1 1
    (by intro row hr; rw [List.mem_singleton] at hr; rw [hr]; rfl)
    (by intro row hr; rw [List.mem_singleton] at hr; rw [hr]; rfl)
    rfl rfl 0 0 (by norm_num) (by norm_num)

/-- C7: for non-empty rectangular fields, `combineNoiseMaps` always (for
every operation value) returns `min(h1,h2)` rows of `min(w1,w2)` columns,
and the Union operation (3) takes the pointwise `max` while the
Intersection operation (4) takes the pointwise `min`. -/
theorem c7_theorem (a b : NoiseMap) (wa wb : ℕ)
    (ha : rectangular a wa) (hb : rectangular b wb)
    (hna : a ≠ []) (hnb : b ≠ [])
    (ha0 : (a.getD 0 []).length = wa) (hb0 : (b.getD 0 []).length = wb) :
    (∀ op : ℕ, (combineNoiseMaps a b op).length = min a.length b.length ∧
      rectangular (combineNoiseMaps a b op) (min wa wb)) ∧
    ∀ y x : ℕ, y < min a.length b.length → x < min wa wb →
      cellGet (combineNoiseMaps a b 3) y x = max (cellGet a y x) (cellGet b y x) ∧
      cellGet (combineNoiseMaps a b 4) y x = min (cellGet a y x) (cellGet b y x) := by
  constructor
  · intro op
    constructor
    · simp [combineNoiseMaps]
    · intro row hrow
      unfold combineNoiseMaps at hrow
      rw [List.mem_map] at hrow
      obtain ⟨y, _, hrow⟩ := hrow
      rw [← hrow, List.length_map, List.length_range, ha0, hb0]
  · intro y x hy hx
    constructor
    · unfold combineNoiseMaps
      rw [ha0, hb0]
      exact cellGet_build (fun y x => max (cellGet a y x) (cellGet b y x))
        (min a.length b.length) (min wa wb) y x hy hx
    · unfold combineNoiseMaps
      rw [ha0, hb0]
      exact cellGet_build (fun y x => min (cellGet a y x) (cellGet b y x))
        (min a.length b.length) (min wa wb) y x hy hx

/-- C7 witness: cropping and Union/Intersection on the concrete maps
`[[1, 2], [3, 4]]` (2×2) and `[[5]]` (1×1). -/
theorem c7_witness :
    (∀ op : ℕ,
      (combineNoiseMaps [[1, 2], [3, 4]] [[5]] op).length
          = min ([[(1:ℝ), 2], [3, 4]] : NoiseMap).length ([[(5:ℝ)]] : NoiseMap).length ∧
      rectangular (combineNoiseMaps [[1, 2], [3, 4]] [[5]] op) (min 2 1)) ∧
    ∀ y x : ℕ,
      y < min ([[(1:ℝ), 2], [3, 4]] : NoiseMap).length ([[(5:ℝ)]] : NoiseMap).length →
      x < min 2 1 →
      cellGet (combineNoiseMaps [[1, 2], [3, 4]] [[5]] 3) y x
          = max (cellGet [[1, 2], [3, 4]] y x) (cellGet [[5]] y x) ∧
      cellGet (combineNoiseMaps [[1, 2], [3, 4]] [[5]] 4) y x
          = min (cellGet [[1, 2], [3, 4]] y x) (cellGet [[5]] y x) :=
  c7_theorem [[1, 2], [3, 4]] [[5]] 2 1
    (by intro row hr; rcases List.mem_cons.mp hr with h | h
        · rw [h]; rfl
        · rw [List.mem_singleton] at h; rw [h]; rfl)
    (by intro row hr; rw [List.mem_singleton] at hr; rw [hr]; rfl)
    (by simp) (by simp) rfl rfl

/-- C8: the Quotient operation (5) of `combineNoiseMaps` passes the
division through unguarded at every cell of the combined region: no
validation, no clamping, no substitute value, no error branch — the cell
is `a[y][x] / b[y][x]` with no side condition on `b[y][x]`. -/
theorem c8_theorem (a b : NoiseMap) (wa wb : ℕ)
    (ha : rectangular a wa) (hb : rectangular b wb)
    (ha0 : (a.getD 0 []).length = wa) (hb0 : (b.getD 0 []).length = wb)
    (y x : ℕ) (hy : y < min a.length b.length) (hx : x < min wa wb) :
    cellGet (combineNoiseMaps a b 5) y x = cellGet a y x / cellGet b y x := by
  unfold combineNoiseMaps
  rw [ha0, hb0]
  exact cellGet_build (fun y x => cellGet a y x / cellGet b y x)
    (min a.length b.length) (min wa wb) y x hy hx

/-- C8 witness: the Quotient pass-through on `[[1]]` over `[[0]]` — a cell
where the divisor is exactly `0`, and the result is still the raw quotient
(no error and no substitute value). -/
theorem c8_witness :
    cellGet (combineNoiseMaps [[1]] [[0]] 5) 0 0
      = cellGet [[1]] 0 0 / cellGet [[0]] 0 0 :=
  c8_theorem [[1]] [[0]] 1 1
    (by intro row hr; rw [List.mem_singleton] at hr; rw [hr]; rfl)
    (by intro row hr; rw [List.mem_singleton] at hr; rw [hr]; rfl)
    rfl rfl 0 0 (by norm_num) (by norm_num)

/-- Each row built by `draw_row` has the requested length. -/
theorem draw_row_length (n : ℕ) (r : FastRandomBlocks) : (draw_row n r).1.length = n := by
  induction n generalizing r with
  | zero => rfl
  | succ n ih => simp [draw_row, ih]

/-- The grid built by `draw_rows` has the requested numbers of rows and
columns. -/
theorem draw_rows_dims (i n : ℕ) (r : FastRandomBlocks) :
    (draw_rows i n r).1.length = i ∧ ∀ row ∈ (draw_rows i n r).1, row.length = n := by
  induction i generalizing r with
  | zero => exact ⟨rfl, by intro row h; cases h⟩
  | succ i ih =>
      refine ⟨by simp [draw_rows, (ih _).1], ?_⟩
      intro row hrow
      simp only [draw_rows, List.mem_cons] at hrow
      rcases hrow with rfl | hrow
      · exact draw_row_length n r
      · exact (ih _).2 row hrow

/-- `initialize_gradients` returns a `nodes × nodes` grid. -/
theorem initialize_gradients_dims (nodes : ℕ) (r : FastRandomBlocks) :
    (initialize_gradients nodes r).1.length = nodes ∧
    ∀ row ∈ (initialize_gradients nodes r).1, row.length = nodes :=
  draw_rows_dims nodes nodes r

/-- A lattice access with both indices inside an `n × n` grid succeeds,
and the vector obtained is one of the grid's entries. -/
theorem gridGet_some (g : Grid) (n : ℕ) (hg : g.length = n)
    (hrows : ∀ row ∈ g, row.length = n) (vx vy : ℤ)
    (hx0 : 0 ≤ vx) (hx1 : vx < (n : ℤ)) (hy0 : 0 ≤ vy) (hy1 : vy < (n : ℤ)) :
    ∃ v, gridGet g vx vy = some v ∧ ∃ row ∈ g, v ∈ row := by
  have hylt : vy.toNat < g.length := by omega
  have hrow : g.get? vy.toNat = some (g.get ⟨vy.toNat, hylt⟩) := List.get?_eq_get hylt
  have hmem : g.get ⟨vy.toNat, hylt⟩ ∈ g := List.get_mem g _ hylt
  have hxlt : vx.toNat < (g.get ⟨vy.toNat, hylt⟩).length := by
    rw [hrows _ hmem]; omega
  have hcell : (g.get ⟨vy.toNat, hylt⟩).get? vx.toNat
      = some ((g.get ⟨vy.toNat, hylt⟩).get ⟨vx.toNat, hxlt⟩) := List.get?_eq_get hxlt
  refine ⟨(g.get ⟨vy.toNat, hylt⟩).get ⟨vx.toNat, hxlt⟩, ?_, g.get ⟨vy.toNat, hylt⟩,
    hmem, List.get_mem _ _ hxlt⟩
  unfold gridGet
  rw [if_pos ⟨hy0, hx0⟩, hrow]
  exact hcell

/-- `collect` succeeds when every listed computation did. -/
theorem collect_isSome {α : Type} :
    ∀ l : List (Option α), (∀ o ∈ l, o.isSome = true) → (collect l).isSome = true
  | [], _ => rfl
  | none :: rest, h => by simpa using h none (by simp)
  | some v :: rest, h => by
      have := collect_isSome rest (fun o ho => h o (by simp [ho]))
      simp only [collect]
      rcases Option.isSome_iff_exists.mp this with ⟨ys, hys⟩
      simp [hys]

/-- `collect` fails as soon as one listed computation failed. -/
theorem collect_none {α : Type} :
    ∀ l : List (Option α), none ∈ l → collect l = none
  | none :: rest, _ => rfl
  | some v :: rest, h => by
      have : none ∈ rest := by simpa using h
      simp [collect, collect_none rest this]

/-- A successful `collect` preserves the number of cells. -/
theorem collect_length {α : Type} :
    ∀ (l : List (Option α)) (ys : List α), collect l = some ys → ys.length = l.length
  | [], ys, h => by simp only [collect] at h; rw [← Option.some_inj.mp h]; rfl
  | none :: rest, ys, h => by simp [collect] at h
  | some v :: rest, ys, h => by
      simp only [collect] at h
      rcases hrest : collect rest with _ | zs
      · rw [hrest] at h; simp at h
      · rw [hrest] at h
        simp only [Option.map_some'] at h
        rw [← Option.some_inj.mp h]
        simp [collect_length rest zs hrest]

/-- Every element of a successful `collect` came wrapped in the input. -/
theorem collect_mem {α : Type} :
    ∀ (l : List (Option α)) (ys : List α), collect l = some ys →
      ∀ y ∈ ys, some y ∈ l
  | [], ys, h, y, hy => by
      simp only [collect] at h
      rw [← Option.some_inj.mp h] at hy
      cases hy
  | none :: rest, ys, h, y, hy => by simp [collect] at h
  | some v :: rest, ys, h, y, hy => by
      simp only [collect] at h
      rcases hrest : collect rest with _ | zs
      · rw [hrest] at h; simp at h
      · rw [hrest] at h
        simp only [Option.map_some'] at h
        rw [← Option.some_inj.mp h] at hy
        rcases List.mem_cons.mp hy with rfl | hy
        · simp
        · simp [collect_mem rest zs hrest y hy]

/-- The sampling coordinate `x / width * (nodes - 1)` used by the coherent
generators: for `x < width` and `nodes ≥ 2` its floor is nonnegative and
`floor + 1` stays strictly inside the `nodes`-wide grid. -/
theorem coord_floor_lt (x w n : ℕ) (hx : x < w) (hn : 2 ≤ n) :
    0 ≤ ⌊(x : ℝ) / (w : ℝ) * ((n : ℝ) - 1)⌋ ∧
    ⌊(x : ℝ) / (w : ℝ) * ((n : ℝ) - 1)⌋ + 1 < (n : ℤ) := by
  have hw0 : (0 : ℝ) < (w : ℝ) := by exact_mod_cast (show 0 < w by omega)
  have hn1 : (0 : ℝ) < (n : ℝ) - 1 := by
    have : (2 : ℝ) ≤ (n : ℝ) := by exact_mod_cast hn
    linarith
  have hc0 : 0 ≤ (x : ℝ) / (w : ℝ) * ((n : ℝ) - 1) :=
    mul_nonneg (div_nonneg (Nat.cast_nonneg x) hw0.le) hn1.le
  refine ⟨Int.floor_nonneg.mpr hc0, ?_⟩
  have hq : (x : ℝ) / (w : ℝ) < 1 := (div_lt_one hw0).mpr (by exact_mod_cast hx)
  have hclt : (x : ℝ) / (w : ℝ) * ((n : ℝ) - 1) < ((n : ℤ) - 1 : ℤ) := by
    push_cast
    calc (x : ℝ) / (w : ℝ) * ((n : ℝ) - 1) < 1 * ((n : ℝ) - 1) :=
          mul_lt_mul_of_pos_right hq hn1
      _ = (n : ℝ) - 1 := one_mul _
  have := Int.floor_lt.mpr hclt
  omega

/-- When the four lattice corners around `(x, y)` are inside an `n × n`
grid, the Perlin blend evaluates (no aborted access). -/
theorem perlin_blend_isSome (g : Grid) (n : ℕ) (hg : g.length = n)
    (hrows : ∀ row ∈ g, row.length = n) (x y : ℝ)
    (hfx0 : 0 ≤ ⌊x⌋) (hfy0 : 0 ≤ ⌊y⌋)
    (hx1 : ⌊x⌋ + 1 < (n : ℤ)) (hy1 : ⌊y⌋ + 1 < (n : ℤ)) :
    (perlin_blend g x y).isSome = true := by
  obtain ⟨v00, h00, -⟩ := gridGet_some g n hg hrows ⌊x⌋ ⌊y⌋ hfx0 (by omega) hfy0 (by omega)
  obtain ⟨v10, h10, -⟩ := gridGet_some g n hg hrows (⌊x⌋ + 1) ⌊y⌋ (by omega) hx1 hfy0 (by omega)
  obtain ⟨v01, h01, -⟩ := gridGet_some g n hg hrows ⌊x⌋ (⌊y⌋ + 1) hfx0 (by omega) (by omega) hy1
  obtain ⟨v11, h11, -⟩ := gridGet_some g n hg hrows (⌊x⌋ + 1) (⌊y⌋ + 1) (by omega) hx1 (by omega) hy1
  simp only [perlin_blend, dot_prod_grid, h00, h10, h01, h11]
  rfl

/-- `perlin_get` evaluates under the same bounds. -/
theorem perlin_get_isSome (g : Grid) (n : ℕ) (hg : g.length = n)
    (hrows : ∀ row ∈ g, row.length = n) (x y : ℝ)
    (hfx0 : 0 ≤ ⌊x⌋) (hfy0 : 0 ≤ ⌊y⌋)
    (hx1 : ⌊x⌋ + 1 < (n : ℤ)) (hy1 : ⌊y⌋ + 1 < (n : ℤ)) :
    (perlin_get g x y).isSome = true := by
  unfold perlin_get
  rw [Option.isSome_map']
  exact perlin_blend_isSome g n hg hrows x y hfx0 hfy0 hx1 hy1

/-- Every coherent-noise generator samples only in-range coordinates when
`width, height ≥ 1` and `nodes ≥ 2`, so the generated map exists. -/
theorem generate_perlin_noise_isSome (g : Grid) (n w h : ℕ) (hg : g.length = n)
    (hrows : ∀ row ∈ g, row.length = n) (hn : 2 ≤ n) :
    (generate_perlin_noise g n w h).isSome = true := by
  unfold generate_perlin_noise
  apply collect_isSome
  intro o ho
  rw [List.mem_map] at ho
  obtain ⟨y, hy, rfl⟩ := ho
  rw [List.mem_range] at hy
  apply collect_isSome
  intro o ho
  rw [List.mem_map] at ho
  obtain ⟨x, hx, rfl⟩ := ho
  rw [List.mem_range] at hx
  obtain ⟨hx0, hx1⟩ := coord_floor_lt x w n hx hn
  obtain ⟨hy0, hy1⟩ := coord_floor_lt y h n hy hn
  exact perlin_get_isSome g n hg hrows _ _ hx0 hy0 hx1 hy1

theorem generate_ridged_noise_isSome (g : Grid) (n w h : ℕ) (hg : g.length = n)
    (hrows : ∀ row ∈ g, row.length = n) (hn : 2 ≤ n) :
    (generate_ridged_noise g n w h).isSome = true := by
  unfold generate_ridged_noise
  apply collect_isSome
  intro o ho
  rw [List.mem_map] at ho
  obtain ⟨y, hy, rfl⟩ := ho
  rw [List.mem_range] at hy
  apply collect_isSome
  intro o ho
  rw [List.mem_map] at ho
  obtain ⟨x, hx, rfl⟩ := ho
  rw [List.mem_range] at hx
  obtain ⟨hx0, hx1⟩ := coord_floor_lt x w n hx hn
  obtain ⟨hy0, hy1⟩ := coord_floor_lt y h n hy hn
  rw [Option.isSome_map']
  exact perlin_get_isSome g n hg hrows _ _ hx0 hy0 hx1 hy1

theorem generate_terrain_noise_isSome (g : Grid) (n w h : ℕ) (hg : g.length = n)
    (hrows : ∀ row ∈ g, row.length = n) (hn : 2 ≤ n) :
    (generate_terrain_noise g n w h).isSome = true := by
  unfold generate_terrain_noise
  apply collect_isSome
  intro o ho
  rw [List.mem_map] at ho
  obtain ⟨y, hy, rfl⟩ := ho
  rw [List.mem_range] at hy
  apply collect_isSome
  intro o ho
  rw [List.mem_map] at ho
  obtain ⟨x, hx, rfl⟩ := ho
  rw [List.mem_range] at hx
  obtain ⟨hx0, hx1⟩ := coord_floor_lt x w n hx hn
  obtain ⟨hy0, hy1⟩ := coord_floor_lt y h n hy hn
  rw [Option.isSome_map']
  exact perlin_get_isSome g n hg hrows _ _ hx0 hy0 hx1 hy1

theorem generate_river_noise_isSome (g : Grid) (n w h : ℕ) (hg : g.length = n)
    (hrows : ∀ row ∈ g, row.length = n) (hn : 2 ≤ n) :
    (generate_river_noise g n w h).isSome = true := by
  unfold generate_river_noise
  rw [Option.isSome_map']
  exact generate_ridged_noise_isSome g n w h hg hrows hn

/-- C3: for each coherent noise kind (Perlin, Ridged, Terrain, River) and
`width, height ≥ 1`, `scale ≥ 2`, every sampled coordinate
`x / width * (nodes - 1)` (and its `y` analog) satisfies
`0 ≤ floor` and `floor + 1 < nodes`, so every gradient-grid access is
inside the `nodes × nodes` grid and `createNoiseMap` returns an actual
map (no aborted access). -/
theorem c3_theorem (kind width height scale : ℕ) (r : FastRandomBlocks)
    (hw : 1 ≤ width) (hh : 1 ≤ height) (hs : 2 ≤ scale)
    (hkind : kind = 0 ∨ kind = 2 ∨ kind = 3 ∨ kind = 4) :
    (∀ x : ℕ, x < width →
      0 ≤ ⌊(x : ℝ) / (width : ℝ) * ((scale : ℝ) - 1)⌋ ∧
      ⌊(x : ℝ) / (width : ℝ) * ((scale : ℝ) - 1)⌋ + 1 < (scale : ℤ)) ∧
    (∀ y : ℕ, y < height →
      0 ≤ ⌊(y : ℝ) / (height : ℝ) * ((scale : ℝ) - 1)⌋ ∧
      ⌊(y : ℝ) / (height : ℝ) * ((scale : ℝ) - 1)⌋ + 1 < (scale : ℤ)) ∧
    (createNoiseMap kind width height scale r).1.isSome = true := by
  refine ⟨fun x hx => coord_floor_lt x width scale hx hs,
    fun y hy => coord_floor_lt y height scale hy hs, ?_⟩
  have hsc : (if scale = 0 then 4 else scale) = scale := if_neg (by omega)
  obtain ⟨hg, hrows⟩ := initialize_gradients_dims scale r
  rcases hkind with rfl | rfl | rfl | rfl
  · simp only [createNoiseMap, hsc]
    exact generate_perlin_noise_isSome _ scale width height hg hrows hs
  · simp only [createNoiseMap, hsc]
    exact generate_ridged_noise_isSome _ scale width height hg hrows hs
  · simp only [createNoiseMap, hsc]
    exact generate_terrain_noise_isSome _ scale width height hg hrows hs
  · simp only [createNoiseMap, hsc]
    exact generate_river_noise_isSome _ scale width height hg hrows hs

/-- C3 witness: kind Perlin, a 1×1 map at scale 2, from the all-zero
draw stream. -/
theorem c3_witness :
    (∀ x : ℕ, x < 1 →
      0 ≤ ⌊(x : ℝ) / (1 : ℕ) * (((2 : ℕ) : ℝ) - 1)⌋ ∧
      ⌊(x : ℝ) / (1 : ℕ) * (((2 : ℕ) : ℝ) - 1)⌋ + 1 < ((2 : ℕ) : ℤ)) ∧
    (∀ y : ℕ, y < 1 →
      0 ≤ ⌊(y : ℝ) / (1 : ℕ) * (((2 : ℕ) : ℝ) - 1)⌋ ∧
      ⌊(y : ℝ) / (1 : ℕ) * (((2 : ℕ) : ℝ) - 1)⌋ + 1 < ((2 : ℕ) : ℤ)) ∧
    (createNoiseMap 0 1 1 2 ⟨fun _ => 0⟩).1.isSome = true :=
  c3_theorem 0 1 1 2 ⟨fun _ => 0⟩ (by norm_num) (by norm_num) (by norm_num)
    (Or.inl rfl)

/-- On `[0,1]` the quintic `smootherstep` stays nonnegative:
`6s^5 - 15s^4 + 10s^3 = 6 s^3 (s - 5/4)^2 + (5/8) s^3`. -/
theorem smootherstep_nonneg (s : ℝ) (h0 : 0 ≤ s) (h1 : s ≤ 1) :
    0 ≤ smootherstep s := by
  unfold smootherstep
  nlinarith [mul_nonneg (mul_nonneg (mul_nonneg h0 h0) h0) (sq_nonneg (s - 5/4)),
    mul_nonneg (mul_nonneg h0 h0) h0]

/-- On `[0,1]` the quintic `smootherstep` stays below one:
`1 - S(s) = (1-s)^3 (6s^2 + 3s + 1)`. -/
theorem smootherstep_le_one (s : ℝ) (h0 : 0 ≤ s) (h1 : s ≤ 1) :
    smootherstep s ≤ 1 := by
  unfold smootherstep
  have hs1 : (0 : ℝ) ≤ 1 - s := by linarith
  nlinarith [mul_nonneg (mul_nonneg (mul_nonneg hs1 hs1) hs1)
    (by nlinarith [sq_nonneg s, sq_nonneg (s + 1)] : (0 : ℝ) ≤ 6 * s ^ 2 + 3 * s + 1)]

/-- The key interpolation-weight bound: with `t = smootherstep s`,
`(1-t) s + t (1-s) ≤ 1/2` on `[0,1]`, since
`1/2 - ((1-S)s + S(1-s)) = (1/2)(2s-1)^2 (6 (s(s-1))^2 + 2s(1-s) + 1)`. -/
theorem weight_bound (s : ℝ) (h0 : 0 ≤ s) (h1 : s ≤ 1) :
    (1 - smootherstep s) * s + smootherstep s * (1 - s) ≤ 1 / 2 := by
  unfold smootherstep
  nlinarith [sq_nonneg ((2*s - 1) * (s * (s - 1))),
    mul_nonneg (sq_nonneg (2*s - 1)) (mul_nonneg h0 (by linarith : (0:ℝ) ≤ 1 - s)),
    sq_nonneg (2*s - 1)]

/-- A component of a unit vector has absolute value at most one. -/
theorem unit_component_le (a b : ℝ) (h : a ^ 2 + b ^ 2 = 1) : |a| ≤ 1 := by
  have ha2 : a ^ 2 ≤ 1 := by nlinarith [sq_nonneg b]
  exact abs_le.mpr ⟨by nlinarith [sq_nonneg (a + 1)], by nlinarith [sq_nonneg (a - 1)]⟩

/-- A corner dot product is bounded by the sum of the absolute values of
the displacement components, for a unit gradient. -/
theorem corner_dot_bound (p q a b : ℝ) (hunit : a ^ 2 + b ^ 2 = 1) :
    |p * a + q * b| ≤ |p| + |q| := by
  have ha := unit_component_le a b hunit
  have hb := unit_component_le b a (by linarith)
  calc |p * a + q * b| ≤ |p * a| + |q * b| := abs_add _ _
    _ = |p| * |a| + |q| * |b| := by rw [abs_mul, abs_mul]
    _ ≤ |p| * 1 + |q| * 1 := by
        have h1 := mul_le_mul_of_nonneg_left ha (abs_nonneg p)
        have h2 := mul_le_mul_of_nonneg_left hb (abs_nonneg q)
        linarith
    _ = |p| + |q| := by ring

/-- `interp` is the convex combination with weight `smootherstep`. -/
theorem interp_convex (s a b : ℝ) :
    interp s a b = (1 - smootherstep s) * a + smootherstep s * b := by
  unfold interp; ring

/-- A convex combination with weight `t ∈ [0,1]` is bounded by the same
combination of bounds on its two arguments. -/
theorem convex_abs_le (t a b bA bB : ℝ) (ht0 : 0 ≤ t) (ht1 : t ≤ 1)
    (ha : |a| ≤ bA) (hb : |b| ≤ bB) :
    |(1 - t) * a + t * b| ≤ (1 - t) * bA + t * bB := by
  obtain ⟨hal, har⟩ := abs_le.mp ha
  obtain ⟨hbl, hbr⟩ := abs_le.mp hb
  have h1 := mul_le_mul_of_nonneg_left har (by linarith : (0:ℝ) ≤ 1 - t)
  have h2 := mul_le_mul_of_nonneg_left hbr ht0
  have h3 := mul_le_mul_of_nonneg_left hal (by linarith : (0:ℝ) ≤ 1 - t)
  have h4 := mul_le_mul_of_nonneg_left hbl ht0
  exact abs_le.mpr ⟨by nlinarith, by nlinarith⟩

/-- The raw quintic bilinear blend of the four corner dot products against
unit gradients lies in `[-1, 1]`: each interpolation is a convex
combination, and `(1-t) sx + t (1-sx) ≤ 1/2` on each axis. -/
theorem blend_bound (sx sy a00 b00 a10 b10 a01 b01 a11 b11 : ℝ)
    (hsx0 : 0 ≤ sx) (hsx1 : sx ≤ 1) (hsy0 : 0 ≤ sy) (hsy1 : sy ≤ 1)
    (h00 : a00 ^ 2 + b00 ^ 2 = 1) (h10 : a10 ^ 2 + b10 ^ 2 = 1)
    (h01 : a01 ^ 2 + b01 ^ 2 = 1) (h11 : a11 ^ 2 + b11 ^ 2 = 1) :
    |interp sy (interp sx (sx * a00 + sy * b00) ((sx - 1) * a10 + sy * b10))
      (interp sx (sx * a01 + (sy - 1) * b01) ((sx - 1) * a11 + (sy - 1) * b11))| ≤ 1 := by
  have hax : |sx| = sx := abs_of_nonneg hsx0
  have hay : |sy| = sy := abs_of_nonneg hsy0
  have haxm : |sx - 1| = 1 - sx := by rw [abs_of_nonpos (by linarith)]; ring
  have haym : |sy - 1| = 1 - sy := by rw [abs_of_nonpos (by linarith)]; ring
  have hd00 : |sx * a00 + sy * b00| ≤ sx + sy := by
    have := corner_dot_bound sx sy a00 b00 h00; rw [hax, hay] at this; exact this
  have hd10 : |(sx - 1) * a10 + sy * b10| ≤ (1 - sx) + sy := by
    have := corner_dot_bound (sx - 1) sy a10 b10 h10; rw [haxm, hay] at this; exact this
  have hd01 : |sx * a01 + (sy - 1) * b01| ≤ sx + (1 - sy) := by
    have := corner_dot_bound sx (sy - 1) a01 b01 h01; rw [hax, haym] at this; exact this
  have hd11 : |(sx - 1) * a11 + (sy - 1) * b11| ≤ (1 - sx) + (1 - sy) := by
    have := corner_dot_bound (sx - 1) (sy - 1) a11 b11 h11
    rw [haxm, haym] at this; exact this
  have ht0 : 0 ≤ smootherstep sx := smootherstep_nonneg sx hsx0 hsx1
  have ht1 : smootherstep sx ≤ 1 := smootherstep_le_one sx hsx0 hsx1
  have hu0 : 0 ≤ smootherstep sy := smootherstep_nonneg sy hsy0 hsy1
  have hu1 : smootherstep sy ≤ 1 := smootherstep_le_one sy hsy0 hsy1
  have hwx : (1 - smootherstep sx) * sx + smootherstep sx * (1 - sx) ≤ 1 / 2 :=
    weight_bound sx hsx0 hsx1
  have hwy : (1 - smootherstep sy) * sy + smootherstep sy * (1 - sy) ≤ 1 / 2 :=
    weight_bound sy hsy0 hsy1
  rw [interp_convex sy, interp_convex sx, interp_convex sx]
  have hix0 : |(1 - smootherstep sx) * (sx * a00 + sy * b00)
      + smootherstep sx * ((sx - 1) * a10 + sy * b10)|
      ≤ (1 - smootherstep sx) * (sx + sy) + smootherstep sx * ((1 - sx) + sy) :=
    convex_abs_le (smootherstep sx) _ _ _ _ ht0 ht1 hd00 hd10
  have hix1 : |(1 - smootherstep sx) * (sx * a01 + (sy - 1) * b01)
      + smootherstep sx * ((sx - 1) * a11 + (sy - 1) * b11)|
      ≤ (1 - smootherstep sx) * (sx + (1 - sy)) + smootherstep sx * ((1 - sx) + (1 - sy)) :=
    convex_abs_le (smootherstep sx) _ _ _ _ ht0 ht1 hd01 hd11
  have hblend := convex_abs_le (smootherstep sy) _ _ _ _ hu0 hu1 hix0 hix1
  refine le_trans hblend ?_
  nlinarith [mul_nonneg hu0 (sub_nonneg.mpr hwx), mul_nonneg (sub_nonneg.mpr hu1)
    (sub_nonneg.mpr hwx)]

/-- C4: for every in-range input (`0 ≤ x`, `0 ≤ y`, `floor + 1 < n` on
both axes) and every `n × n` gradient grid of unit vectors, the raw
bilinear quintic blend of the four corner dot products computed by
`perlin_get` lies in `[-1, 1]`, and the returned value `(blend + 1) / 2`
lies in `[0, 1]`. -/
theorem c4_theorem (g : Grid) (n : ℕ) (x y : ℝ)
    (hg : g.length = n) (hrows : ∀ row ∈ g, row.length = n)
    (hunit : ∀ row ∈ g, ∀ v ∈ row, v.x ^ 2 + v.y ^ 2 = 1)
    (hx0 : 0 ≤ x) (hy0 : 0 ≤ y)
    (hx1 : ⌊x⌋ + 1 < (n : ℤ)) (hy1 : ⌊y⌋ + 1 < (n : ℤ)) :
    ∃ b, perlin_blend g x y = some b ∧ -1 ≤ b ∧ b ≤ 1 ∧
      perlin_get g x y = some ((b + 1) / 2) ∧
      0 ≤ (b + 1) / 2 ∧ (b + 1) / 2 ≤ 1 := by
  have hfx0 : 0 ≤ ⌊x⌋ := Int.floor_nonneg.mpr hx0
  have hfy0 : 0 ≤ ⌊y⌋ := Int.floor_nonneg.mpr hy0
  obtain ⟨v00, h00, r00, hr00, hv00⟩ :=
    gridGet_some g n hg hrows ⌊x⌋ ⌊y⌋ hfx0 (by omega) hfy0 (by omega)
  obtain ⟨v10, h10, r10, hr10, hv10⟩ :=
    gridGet_some g n hg hrows (⌊x⌋ + 1) ⌊y⌋ (by omega) hx1 hfy0 (by omega)
  obtain ⟨v01, h01, r01, hr01, hv01⟩ :=
    gridGet_some g n hg hrows ⌊x⌋ (⌊y⌋ + 1) hfx0 (by omega) (by omega) hy1
  obtain ⟨v11, h11, r11, hr11, hv11⟩ :=
    gridGet_some g n hg hrows (⌊x⌋ + 1) (⌊y⌋ + 1) (by omega) hx1 (by omega) hy1
  have hu00 := hunit _ hr00 _ hv00
  have hu10 := hunit _ hr10 _ hv10
  have hu01 := hunit _ hr01 _ hv01
  have hu11 := hunit _ hr11 _ hv11
  have hb : perlin_blend g x y = some (interp (y - (⌊y⌋ : ℝ))
      (interp (x - (⌊x⌋ : ℝ))
        ((x - (⌊x⌋ : ℝ)) * v00.x + (y - (⌊y⌋ : ℝ)) * v00.y)
        ((x - (⌊x⌋ : ℝ) - 1) * v10.x + (y - (⌊y⌋ : ℝ)) * v10.y))
      (interp (x - (⌊x⌋ : ℝ))
        ((x - (⌊x⌋ : ℝ)) * v01.x + (y - (⌊y⌋ : ℝ) - 1) * v01.y)
        ((x - (⌊x⌋ : ℝ) - 1) * v11.x + (y - (⌊y⌋ : ℝ) - 1) * v11.y))) := by
    simp only [perlin_blend, dot_prod_grid, h00, h10, h01, h11]
    congr 1
    unfold interp
    push_cast
    ring
  have hsx0 : 0 ≤ x - (⌊x⌋ : ℝ) := sub_nonneg.mpr (Int.floor_le x)
  have hsx1 : x - (⌊x⌋ : ℝ) ≤ 1 := by
    have := Int.lt_floor_add_one x; linarith
  have hsy0 : 0 ≤ y - (⌊y⌋ : ℝ) := sub_nonneg.mpr (Int.floor_le y)
  have hsy1 : y - (⌊y⌋ : ℝ) ≤ 1 := by
    have := Int.lt_floor_add_one y; linarith
  have hbound := blend_bound (x - (⌊x⌋ : ℝ)) (y - (⌊y⌋ : ℝ))
    v00.x v00.y v10.x v10.y v01.x v01.y v11.x v11.y
    hsx0 hsx1 hsy0 hsy1 hu00 hu10 hu01 hu11
  obtain ⟨hbl, hbr⟩ := abs_le.mp hbound
  refine ⟨_, hb, hbl, hbr, ?_, by linarith, by linarith⟩
  unfold perlin_get
  rw [hb]
  rfl

/-- C4 witness: the constant grid of unit vectors `(1, 0)` at `n = 2`,
evaluated at the in-range point `(0, 0)`. -/
theorem c4_witness :
    ∃ b, perlin_blend [[⟨1, 0⟩, ⟨1, 0⟩], [⟨1, 0⟩, ⟨1, 0⟩]] 0 0 = some b ∧
      -1 ≤ b ∧ b ≤ 1 ∧
      perlin_get [[⟨1, 0⟩, ⟨1, 0⟩], [⟨1, 0⟩, ⟨1, 0⟩]] 0 0 = some ((b + 1) / 2) ∧
      0 ≤ (b + 1) / 2 ∧ (b + 1) / 2 ≤ 1 :=
  c4_theorem [[⟨1, 0⟩, ⟨1, 0⟩], [⟨1, 0⟩, ⟨1, 0⟩]] 2 0 0 rfl
    (by intro row hr
        rcases List.mem_cons.mp hr with rfl | hr
        · rfl
        · rw [List.mem_singleton] at hr; rw [hr]; rfl)
    (by intro row hr v hv
        have hx : v = (⟨1, 0⟩ : Vec2) := by
          rcases List.mem_cons.mp hr with rfl | hr
          · rcases List.mem_cons.mp hv with rfl | hv
            · rfl
            · rw [List.mem_singleton] at hv; exact hv
          · rw [List.mem_singleton] at hr; subst hr
            rcases List.mem_cons.mp hv with rfl | hv
            · rfl
            · rw [List.mem_singleton] at hv; exact hv
        rw [hx]; norm_num)
    le_rfl le_rfl
    (by rw [Int.floor_zero]; norm_num) (by rw [Int.floor_zero]; norm_num)

/-- Adding a row of zeros cell-wise is the identity. -/
theorem zipWith_add_zero_row : ∀ l : List ℝ,
    List.zipWith (fun u v => u + v) (List.replicate l.length (0 : ℝ)) l = l
  | [] => rfl
  | a :: l => by
      simp only [List.length_cons, List.replicate_succ, List.zipWith_cons_cons,
        zero_add, zipWith_add_zero_row l]

/-- Accumulating into the zero map is the identity. -/
theorem mapAdd_zero (w : ℕ) : ∀ m : NoiseMap, (∀ row ∈ m, row.length = w) →
    mapAdd (List.replicate m.length (List.replicate w (0 : ℝ))) m = m
  | [], _ => rfl
  | row :: rest, h => by
      have hrow : row.length = w := h row (List.mem_cons_self _ _)
      have hrest := mapAdd_zero w rest (fun q hq => h q (List.mem_cons_of_mem _ hq))
      have hhead : List.zipWith (fun u v => u + v) (List.replicate w (0 : ℝ)) row = row := by
        rw [← hrow]; exact zipWith_add_zero_row row
      unfold mapAdd at hrest ⊢
      simp only [List.length_cons, List.replicate_succ, List.zipWith_cons_cons]
      rw [hhead, hrest]

/-- Scaling by the initial amplitude 1 is the identity. -/
theorem mapScale_one (m : NoiseMap) : mapScale 1 m = m := by
  unfold mapScale
  simp

/-- A successful octave field has the full `height × width` shape. -/
theorem layer_field_dims (g : Grid) (ln : ℝ) (w h : ℕ) (f : NoiseMap)
    (hf : layer_field g ln w h = some f) :
    f.length = h ∧ ∀ row ∈ f, row.length = w := by
  unfold layer_field at hf
  constructor
  · have := collect_length _ _ hf
    simpa using this
  · intro row hrow
    have hmem := collect_mem _ _ hf row hrow
    rw [List.mem_map] at hmem
    obtain ⟨y, hy, hFy⟩ := hmem
    have := collect_length _ _ hFy
    simpa using this

/-- A single octave of `createLayeredNoiseMap` is exactly one Perlin field
sampled at `(x / width * nodes, y / height * nodes)` — the node count
itself, not `nodes - 1`. -/
theorem layered_single (width height scale : ℕ) (persistence : ℚ) (r : FastRandomBlocks) :
    (createLayeredNoiseMap width height 1 scale persistence r).1
      = layer_field (initialize_gradients (if scale = 0 then 4 else scale) r).1
          (((if scale = 0 then 4 else scale : ℕ) : ℝ)) width height := by
  unfold createLayeredNoiseMap
  simp only [layered_loop]
  rw [pow_zero, mul_one]
  cases hlf : layer_field (initialize_gradients (if scale = 0 then 4 else scale) r).1
      (((if scale = 0 then 4 else scale : ℕ) : ℝ)) width height with
  | none => rfl
  | some f =>
      obtain ⟨hflen, hfrows⟩ := layer_field_dims _ _ _ _ _ hlf
      simp only [mapScale_one]
      rw [show (List.range height).map
            (fun (_ : ℕ) => (List.range width).map (fun (_ : ℕ) => (0 : ℝ)))
          = List.replicate height (List.replicate width (0 : ℝ)) by
        rw [List.map_const', List.length_range, List.map_const', List.length_range]]
      rw [← hflen, mapAdd_zero width f hfrows]
      simp

/-- A lattice access whose column index reaches past every row fails. -/
theorem gridGet_none_right (g : Grid) (vx vy : ℤ) (hy0 : 0 ≤ vy) (hx0 : 0 ≤ vx)
    (hylt : vy.toNat < g.length)
    (hlen : ∀ row ∈ g, row.length ≤ vx.toNat) : gridGet g vx vy = none := by
  unfold gridGet
  rw [if_pos ⟨hy0, hx0⟩, List.get?_eq_get hylt]
  exact List.get?_eq_none.mpr (hlen _ (List.get_mem g _ hylt))

/-- If the `(x1, y0)` corner access fails, `perlin_get` aborts. -/
theorem perlin_get_none_of_gridGet (g : Grid) (x y : ℝ)
    (h : gridGet g (⌊x⌋ + 1) ⌊y⌋ = none) : perlin_get g x y = none := by
  have h2 : dot_prod_grid g x y (⌊x⌋ + 1) ⌊y⌋ = none := by
    unfold dot_prod_grid
    rw [h]
  cases hA : dot_prod_grid g x y ⌊x⌋ ⌊y⌋ <;>
    cases hB : dot_prod_grid g x y ⌊x⌋ (⌊y⌋ + 1) <;>
      cases hC : dot_prod_grid g x y (⌊x⌋ + 1) (⌊y⌋ + 1) <;>
        simp [perlin_get, perlin_blend, h2, hA, hB, hC]

/-- One failing cell aborts the whole octave field. -/
theorem layer_field_none (g : Grid) (ln : ℝ) (w h y x : ℕ)
    (hy : y < h) (hx : x < w)
    (hcell : perlin_get g ((x : ℝ) / (w : ℝ) * ln) ((y : ℝ) / (h : ℝ) * ln) = none) :
    layer_field g ln w h = none := by
  unfold layer_field
  apply collect_none
  rw [List.mem_map]
  refine ⟨y, List.mem_range.mpr hy, ?_⟩
  apply collect_none
  rw [List.mem_map]
  exact ⟨x, List.mem_range.mpr hx, hcell⟩

/-- C2: the claim as stated is false.  At `width = 2`, `height = 1`,
`scale = 2`, from any given RNG state (here the all-zero draw stream),
`createLayeredNoiseMap` with one layer samples `x / width * scale`, which
at `x = 1` reaches coordinate 1, whose right lattice neighbour `x1 = 2`
is outside the `2 × 2` gradient grid — the call aborts (`none`) while
`createNoiseMap(Perlin)` (sampling `x / width * (scale - 1)`) returns a
map: the two results differ. -/
theorem c2_counterexample :
    (createLayeredNoiseMap 2 1 1 2 0 ⟨fun _ => 0⟩).1 = none ∧
    (createNoiseMap 0 2 1 2 ⟨fun _ => 0⟩).1 ≠ none := by
  obtain ⟨hglen, hgrows⟩ := initialize_gradients_dims 2 ⟨fun _ => 0⟩
  constructor
  · rw [layered_single]
    rw [show (if (2 : ℕ) = 0 then 4 else 2) = 2 from rfl]
    have hoob : gridGet (initialize_gradients 2 ⟨fun _ => 0⟩).1 (⌊(1 : ℝ)⌋ + 1) ⌊(0 : ℝ)⌋
        = none := by
      apply gridGet_none_right
      · rw [Int.floor_zero]
      · rw [Int.floor_one]; norm_num
      · rw [Int.floor_zero, hglen]; norm_num
      · intro row hrow
        rw [hgrows row hrow, Int.floor_one]
        norm_num
    have hcell := perlin_get_none_of_gridGet (initialize_gradients 2 ⟨fun _ => 0⟩).1 1 0 hoob
    apply layer_field_none (initialize_gradients 2 ⟨fun _ => 0⟩).1 _ 2 1 0 1
      (by norm_num) (by norm_num)
    convert hcell using 2 <;> norm_num
  · rw [show (createNoiseMap 0 2 1 2 ⟨fun _ => 0⟩).1
        = generate_perlin_noise (initialize_gradients 2 ⟨fun _ => 0⟩).1 2 2 1 from rfl]
    exact Option.ne_none_iff_isSome.mpr
      (generate_perlin_noise_isSome _ 2 2 1 hglen hgrows (by norm_num))

/-- C2 (amended): `createLayeredNoiseMap(width, height, 1, scale)` from a
given RNG state builds one gradient grid exactly as
`createNoiseMap(Perlin)` would from that state, but samples it at
`(x / width * nodes, y / height * nodes)` — frequency `nodes`, not the
`nodes - 1` used by plain Perlin synthesis — so a single octave is a
Perlin field at the shifted frequency rather than the plain Perlin map. -/
theorem c2_theorem (width height scale : ℕ) (persistence : ℚ) (r : FastRandomBlocks) :
    (createLayeredNoiseMap width height 1 scale persistence r).1
      = layer_field (initialize_gradients (if scale = 0 then 4 else scale) r).1
          (((if scale = 0 then 4 else scale : ℕ) : ℝ)) width height ∧
    (createNoiseMap 0 width height scale r).1
      = generate_perlin_noise (initialize_gradients (if scale = 0 then 4 else scale) r).1
          (if scale = 0 then 4 else scale) width height :=
  ⟨layered_single width height scale persistence r, rfl⟩
